import Mathlib

/-!
Verification of the transcoding orchestration core of the `ffmcli` repository.

Go strings are modelled as `List Char`, one `Char` per byte (all characters the
code inspects are ASCII, and ASCII bytes never occur inside a multi-byte UTF-8
sequence, so byte-level and char-level views of every operation used here agree).
`strings.ReplaceAll`, `strings.TrimRight`, `filepath.Base`, `filepath.Ext` and
the slicing/length operations are embedded below with Go's semantics.
-/

/-- Go string, one entry per byte. -/
abbrev Str := List Char

/-- Embedding of Go `strings.ReplaceAll(s, pat, rep)` for a non-empty pattern:
greedy leftmost non-overlapping replacement, continuing after each inserted
replacement (the replacement text is never rescanned). -/
def replaceAll (s pat rep : Str) : Str :=
  match s with
  | [] => []
  | c :: cs =>
    if h : pat.isPrefixOf (c :: cs) ∧ pat ≠ [] then
      rep ++ replaceAll ((c :: cs).drop pat.length) pat rep
    else
      c :: replaceAll cs pat rep
termination_by s.length
decreasing_by
  · have hlen : 1 ≤ pat.length := by
      cases pat with
      | nil => exact absurd rfl h.2
      | cons p ps => simp
    simp only [List.length_drop, List.length_cons]
    omega
  · simp

/-- Embedding of Go `strings.TrimRight(s, cutset)`: removes trailing bytes
belonging to the cutset. -/
def trimRight (s : Str) (cut : List Char) : Str :=
  ((s.reverse).dropWhile (fun c => decide (c ∈ cut))).reverse

theorem replaceAll_nil (pat rep : Str) : replaceAll [] pat rep = [] := by
  simp [replaceAll]

/-- If the pattern does not occur in `s`, `replaceAll` is the identity. -/
theorem replaceAll_of_no_occurrence {s pat : Str} (rep : Str)
    (h : ¬ pat <:+: s) : replaceAll s pat rep = s := by
  induction s with
  | nil => simp [replaceAll]
  | cons c cs ih =>
    have hpre : ¬ pat.isPrefixOf (c :: cs) = true := by
      intro hp
      exact h (List.IsPrefix.isInfix (List.isPrefixOf_iff_prefix.mp hp))
    rw [replaceAll]
    rw [dif_neg (by intro hc; exact hpre hc.1)]
    rw [ih (fun hc => h (List.infix_cons hc))]

/-- Every element of the output of `replaceAll` comes from the input or from the
replacement text. -/
theorem mem_replaceAll {a : Char} :
    ∀ {s pat rep : Str}, a ∈ replaceAll s pat rep → a ∈ s ∨ a ∈ rep := by
  intro s pat rep
  induction s, pat, rep using replaceAll.induct with
  | case1 pat rep =>
    intro h
    simp [replaceAll] at h
  | case2 pat rep c cs hcond ih =>
    intro h
    rw [replaceAll, dif_pos hcond] at h
    rcases List.mem_append.mp h with hr | hrec
    · exact Or.inr hr
    · rcases ih hrec with hs | hr
      · exact Or.inl (List.mem_of_mem_drop hs)
      · exact Or.inr hr
  | case3 pat rep c cs hcond ih =>
    intro h
    rw [replaceAll, dif_neg hcond] at h
    rcases List.mem_cons.mp h with rfl | hrec
    · exact Or.inl (List.mem_cons_self a cs)
    · rcases ih hrec with hs | hr
      · exact Or.inl (List.mem_cons_of_mem _ hs)
      · exact Or.inr hr

/-- `ReplaceAll` with a single-character pattern and empty replacement is the
filter that removes that character. -/
theorem replaceAll_single_nil_eq_filter (c : Char) :
    ∀ s : Str, replaceAll s [c] [] = s.filter (fun x => decide (x ≠ c)) := by
  intro s
  induction s with
  | nil => simp [replaceAll]
  | cons a as ih =>
    by_cases hac : a = c
    · subst hac
      rw [replaceAll, dif_pos (by simp [List.isPrefixOf])]
      simp [ih]
    · rw [replaceAll, dif_neg (by simp [List.isPrefixOf]; intro hc; exact absurd hc.symm hac)]
      rw [List.filter_cons, if_pos (by simpa using hac)]
      rw [ih]

/-- `ReplaceAll` with a single-character pattern and a single-character
replacement is the pointwise substitution map. -/
theorem replaceAll_single_eq_map (c d : Char) :
    ∀ s : Str, replaceAll s [c] [d] = s.map (fun x => if x = c then d else x) := by
  intro s
  induction s with
  | nil => simp [replaceAll]
  | cons a as ih =>
    by_cases hac : a = c
    · subst hac
      rw [replaceAll, dif_pos (by simp [List.isPrefixOf])]
      simp [ih]
    · rw [replaceAll, dif_neg (by simp [List.isPrefixOf]; intro hc; exact absurd hc.symm hac)]
      rw [ih]
      simp [hac]

theorem mem_replaceAll_single_nil {z c : Char} {s : Str} :
    z ∈ replaceAll s [c] [] ↔ z ∈ s ∧ z ≠ c := by
  rw [replaceAll_single_nil_eq_filter, List.mem_filter]
  simp

theorem mem_replaceAll_single_sub {z c d : Char} {s : Str}
    (h : z ∈ replaceAll s [c] [d]) : z = d ∨ (z ∈ s ∧ z ≠ c) := by
  rw [replaceAll_single_eq_map] at h
  rcases List.mem_map.mp h with ⟨x, hx, hfx⟩
  by_cases hxc : x = c
  · subst hxc
    rw [if_pos rfl] at hfx
    exact Or.inl hfx.symm
  · rw [if_neg hxc] at hfx
    subst hfx
    exact Or.inr ⟨hx, hxc⟩

/-- When the first character of a string is not a dot, the `".."` collapse
keeps that character in place. -/
theorem replaceAll_dd_cons_of_ne {d : Char} (hd : d ≠ '.') (cs : Str) :
    replaceAll (d :: cs) ['.', '.'] ['_'] = d :: replaceAll cs ['.', '.'] ['_'] := by
  rw [replaceAll, dif_neg]
  intro hc
  have := hc.1
  simp [List.isPrefixOf] at this
  exact hd this.1.symm

/-- The result of collapsing `".."` never contains two adjacent dots: a
replacement inserts `'_'`, and a dot copied to the output is always followed in
the input by a non-dot character, which the scan copies next. -/
theorem not_dd_infix_replaceAll_aux :
    ∀ (s pat rep : Str), pat = ['.', '.'] → rep = ['_'] →
      ¬ (['.', '.'] <:+: replaceAll s pat rep) := by
  intro s pat rep
  induction s, pat, rep using replaceAll.induct with
  | case1 pat rep =>
    intro _ _ h
    rw [replaceAll_nil] at h
    rcases h with ⟨l, r, hlr⟩
    simp at hlr
  | case2 pat rep c cs hcond ih =>
    intro hpat hrep h
    subst hpat; subst hrep
    rw [replaceAll, dif_pos hcond] at h
    rcases List.infix_cons_iff.mp h with hp | hi
    · rcases List.cons_prefix_cons.mp hp with ⟨hdot, _⟩
      exact absurd hdot (by decide)
    · exact ih rfl rfl hi
  | case3 pat rep c cs hcond ih =>
    intro hpat hrep h
    subst hpat; subst hrep
    rw [replaceAll, dif_neg hcond] at h
    rcases List.infix_cons_iff.mp h with hp | hi
    · rcases List.cons_prefix_cons.mp hp with ⟨hdot, hrest⟩
      subst hdot
      have hcs : ∀ d cs', cs = d :: cs' → d ≠ '.' := by
        intro d cs' hcseq hdeq
        subst hcseq; subst hdeq
        exact hcond ⟨by simp [List.isPrefixOf], by simp⟩
      cases cs with
      | nil =>
        rw [replaceAll_nil] at hrest
        rcases hrest with ⟨t, ht⟩
        simp at ht
      | cons d cs' =>
        have hd : d ≠ '.' := hcs d cs' rfl
        rw [replaceAll_dd_cons_of_ne hd] at hrest
        rcases List.cons_prefix_cons.mp hrest with ⟨hdd, _⟩
        exact hd hdd.symm
    · exact ih rfl rfl hi

theorem not_dd_infix_replaceAll (s : Str) :
    ¬ (['.', '.'] <:+: replaceAll s ['.', '.'] ['_']) :=
  not_dd_infix_replaceAll_aux s ['.', '.'] ['_'] rfl rfl

theorem trimRight_pfx (s : Str) (cut : List Char) : trimRight s cut <+: s := by
  have h := List.dropWhile_suffix (l := s.reverse) (fun c => decide (c ∈ cut))
  have h2 : (trimRight s cut).reverse <:+ s.reverse := by
    simpa [trimRight] using h
  exact List.reverse_suffix.mp h2

theorem dropWhile_dropWhile (p : Char → Bool) :
    ∀ l : Str, List.dropWhile p (List.dropWhile p l) = List.dropWhile p l := by
  intro l
  induction l with
  | nil => simp
  | cons a as ih =>
    by_cases hpa : p a = true
    · rw [List.dropWhile_cons, if_pos hpa, ih]
    · rw [List.dropWhile_cons, if_neg hpa, List.dropWhile_cons, if_neg hpa]

theorem trimRight_idem (s : Str) (cut : List Char) :
    trimRight (trimRight s cut) cut = trimRight s cut := by
  simp only [trimRight, List.reverse_reverse]
  rw [dropWhile_dropWhile]

/-- The character-replacement table of `SanitizeFilename` (errors.go:208-218),
pattern and replacement, in the order the Go map literal lists them.  Go
iterates the map in unspecified order, but every pattern is a distinct single
character and neither replacement (`""`, `"_"`) contains any pattern character,
so all iteration orders compute the same function; the literal order is fixed
here. -/
def problematicPairs : List (Char × Str) :=
  [('<', []), ('>', []), (':', []), ('"', []), ('|', []), ('?', []), ('*', []),
   ('/', ['_']), ('\\', ['_'])]

/-- The per-character `ReplaceAll` loop of `SanitizeFilename`
(errors.go:220-223). -/
def charStrip (s : Str) : Str :=
  problematicPairs.foldl (fun acc pr => replaceAll acc [pr.1] pr.2) s

/-- The consecutive-dot collapse of `SanitizeFilename` (errors.go:225-227):
`ReplaceAll(s, "..", "_")` followed by `ReplaceAll(s, "...", "_")`. -/
def dotCollapse (s : Str) : Str :=
  replaceAll (replaceAll s ['.', '.'] ['_']) ['.', '.', '.'] ['_']

/-- The length cap of `SanitizeFilename` (errors.go:229-232):
`if len(cleaned) > 180 { cleaned = cleaned[:180] }`. -/
def lengthCap (s : Str) : Str :=
  if 180 < s.length then s.take 180 else s

/-- Embedding of `PathUtils.SanitizeFilename` (errors.go:207-238): strip or
replace problematic characters, collapse consecutive dots, cap the length at
180, and trim trailing dots and spaces. -/
def sanitizeFilename (filename : Str) : Str :=
  trimRight (lengthCap (dotCollapse (charStrip filename))) ['.', ' ']

/-- A character that survives sanitization: none of the nine problematic
characters. -/
abbrev NotProblematic (z : Char) : Prop :=
  z ≠ '<' ∧ z ≠ '>' ∧ z ≠ ':' ∧ z ≠ '"' ∧ z ≠ '|' ∧ z ≠ '?' ∧ z ≠ '*' ∧
    z ≠ '/' ∧ z ≠ '\\'

theorem charStrip_chars {x : Str} {z : Char} (h : z ∈ charStrip x) :
    NotProblematic z := by
  simp only [charStrip, problematicPairs, List.foldl_cons, List.foldl_nil] at h
  rcases mem_replaceAll_single_sub h with h9 | ⟨h, hne9⟩
  · subst h9; decide
  rcases mem_replaceAll_single_sub h with h8 | ⟨h, hne8⟩
  · subst h8; decide
  rw [mem_replaceAll_single_nil] at h
  obtain ⟨h, hne7⟩ := h
  rw [mem_replaceAll_single_nil] at h
  obtain ⟨h, hne6⟩ := h
  rw [mem_replaceAll_single_nil] at h
  obtain ⟨h, hne5⟩ := h
  rw [mem_replaceAll_single_nil] at h
  obtain ⟨h, hne4⟩ := h
  rw [mem_replaceAll_single_nil] at h
  obtain ⟨h, hne3⟩ := h
  rw [mem_replaceAll_single_nil] at h
  obtain ⟨h, hne2⟩ := h
  rw [mem_replaceAll_single_nil] at h
  obtain ⟨h, hne1⟩ := h
  exact ⟨hne1, hne2, hne3, hne4, hne5, hne6, hne7, hne8, hne9⟩

theorem dotCollapse_eq (s : Str) :
    dotCollapse s = replaceAll s ['.', '.'] ['_'] := by
  unfold dotCollapse
  apply replaceAll_of_no_occurrence
  intro hddd
  exact not_dd_infix_replaceAll s
    (List.IsInfix.trans (List.IsPrefix.isInfix (by decide)) hddd)

theorem not_dd_infix_dotCollapse (s : Str) :
    ¬ (['.', '.'] <:+: dotCollapse s) := by
  rw [dotCollapse_eq]
  exact not_dd_infix_replaceAll s

theorem lengthCap_pfx (s : Str) : lengthCap s <+: s := by
  unfold lengthCap
  by_cases hl : 180 < s.length
  · rw [if_pos hl]; exact List.take_prefix 180 s
  · rw [if_neg hl]

theorem lengthCap_le (s : Str) : (lengthCap s).length ≤ 180 := by
  unfold lengthCap
  by_cases hl : 180 < s.length
  · rw [if_pos hl]
    simp [List.length_take]
  · rw [if_neg hl]
    omega

theorem sanitizeFilename_chars {x : Str} {z : Char}
    (h : z ∈ sanitizeFilename x) : NotProblematic z := by
  unfold sanitizeFilename at h
  have h1 := (trimRight_pfx _ _).subset h
  have h2 := (lengthCap_pfx _).subset h1
  rcases mem_replaceAll (by rw [dotCollapse_eq] at h2; exact h2) with h3 | hu
  · exact charStrip_chars h3
  · simp at hu; subst hu; decide

theorem sanitizeFilename_no_dd (x : Str) :
    ¬ (['.', '.'] <:+: sanitizeFilename x) := by
  intro h
  unfold sanitizeFilename at h
  have h1 := h.trans (List.IsPrefix.isInfix (trimRight_pfx _ _))
  have h2 := h1.trans (List.IsPrefix.isInfix (lengthCap_pfx _))
  exact not_dd_infix_dotCollapse _ h2

theorem sanitizeFilename_len (x : Str) : (sanitizeFilename x).length ≤ 180 :=
  le_trans (List.IsPrefix.length_le (trimRight_pfx _ _)) (lengthCap_le _)

/-- A single-character pattern occurs as an infix exactly when the character is
a member. -/
theorem single_infix_iff_mem {c : Char} {s : Str} : [c] <:+: s ↔ c ∈ s := by
  constructor
  · intro h
    exact h.subset (List.mem_singleton_self c)
  · intro h
    rcases List.mem_iff_append.mp h with ⟨l, r, rfl⟩
    exact ⟨l, r, by simp⟩

theorem charStrip_fixed {y : Str} (h : ∀ z ∈ y, NotProblematic z) :
    charStrip y = y := by
  simp only [charStrip, problematicPairs, List.foldl_cons, List.foldl_nil]
  have fix : ∀ (c : Char) (rep : Str), (∀ z ∈ y, z ≠ c) → replaceAll y [c] rep = y := by
    intro c rep hc
    apply replaceAll_of_no_occurrence
    rw [single_infix_iff_mem]
    intro hmem
    exact hc c hmem rfl
  rw [fix '<' [] (fun z hz => (h z hz).1)]
  rw [fix '>' [] (fun z hz => (h z hz).2.1)]
  rw [fix ':' [] (fun z hz => (h z hz).2.2.1)]
  rw [fix '"' [] (fun z hz => (h z hz).2.2.2.1)]
  rw [fix '|' [] (fun z hz => (h z hz).2.2.2.2.1)]
  rw [fix '?' [] (fun z hz => (h z hz).2.2.2.2.2.1)]
  rw [fix '*' [] (fun z hz => (h z hz).2.2.2.2.2.2.1)]
  rw [fix '/' ['_'] (fun z hz => (h z hz).2.2.2.2.2.2.2.1)]
  rw [fix '\\' ['_'] (fun z hz => (h z hz).2.2.2.2.2.2.2.2)]

theorem dotCollapse_fixed {y : Str} (h : ¬ (['.', '.'] <:+: y)) :
    dotCollapse y = y := by
  unfold dotCollapse
  rw [replaceAll_of_no_occurrence _ h]
  apply replaceAll_of_no_occurrence
  intro hddd
  exact h (List.IsInfix.trans (List.IsPrefix.isInfix (by decide)) hddd)

theorem lengthCap_fixed {y : Str} (h : y.length ≤ 180) : lengthCap y = y := by
  unfold lengthCap
  rw [if_neg (by omega)]

/-- C7: `SanitizeFilename` is idempotent: for every input string `x`,
`sanitize(sanitize(x))` equals `sanitize(x)`. -/
theorem sanitizeFilename_idempotent (x : Str) :
    sanitizeFilename (sanitizeFilename x) = sanitizeFilename x := by
  show trimRight (lengthCap (dotCollapse (charStrip (sanitizeFilename x)))) ['.', ' ']
      = sanitizeFilename x
  rw [charStrip_fixed (fun z hz => sanitizeFilename_chars hz)]
  rw [dotCollapse_fixed (sanitizeFilename_no_dd x)]
  rw [lengthCap_fixed (sanitizeFilename_len x)]
  exact trimRight_idem (lengthCap (dotCollapse (charStrip x))) ['.', ' ']

/-- The error kinds of the `TranscoderError` taxonomy (errors.go:13-21). -/
inductive ErrorType where
  | ffmpegNotFound
  | gpuNotAvailable
  | encoderNotFound
  | invalidPreset
  | invalidFilePath
  | encodingFailed
  | fileSystemError
deriving DecidableEq

/-- The reserved characters checked by `ValidateFilePath` (errors.go:142), in
source order.  Each Go entry is a one-character string, so
`strings.Contains(filename, char)` is character membership. -/
def problematicChars : List Char := ['<', '>', ':', '"', '|', '?', '*']

/-- Embedding of `filepath.Base` (Unix separator): strip trailing separators,
then keep everything after the last separator; `"."` for the empty path and
`"/"` for an all-separator path. -/
def baseName (p : Str) : Str :=
  if p = [] then ['.']
  else
    let q := List.dropWhile (fun c => decide (c = '/')) p.reverse
    let r := List.takeWhile (fun c => decide (c ≠ '/')) q
    if r = [] then ['/'] else r.reverse

/-- Embedding of `ValidateFilePath` (errors.go:133-151).  `none` models a nil
error.  Note the source returns nil early for paths longer than 260 bytes
("this is a warning, not an error"), skipping the character check. -/
def validateFilePath (path : Str) : Option ErrorType :=
  if 260 < path.length then
    none
  else if problematicChars.any (fun c => decide (c ∈ baseName path)) then
    some ErrorType.invalidFilePath
  else
    none

/-- A path longer than 260 bytes whose base filename contains `'<'`. -/
def longBadPath : Str := List.replicate 260 'a' ++ ['<']

set_option maxRecDepth 8000 in
/-- C4 counterexample: a path longer than the classic ceiling whose base
filename contains the reserved character `'<'` is accepted by
`ValidateFilePath` (it returns nil), contradicting the claim that such
filenames are rejected regardless of path length. -/
theorem validateFilePath_long_path_counterexample :
    260 < longBadPath.length ∧ '<' ∈ baseName longBadPath ∧
      validateFilePath longBadPath = none := by
  refine ⟨by decide, by decide, ?_⟩
  unfold validateFilePath
  rw [if_pos (by decide)]

/-- C4 (amended): for paths of length at most 260, `ValidateFilePath` returns
an `InvalidFilePath` error exactly when the base filename contains a reserved
character; paths longer than 260 bytes are accepted without the character
check. -/
theorem validateFilePath_spec :
    (∀ path : Str, path.length ≤ 260 →
      (validateFilePath path = some ErrorType.invalidFilePath ↔
        ∃ c ∈ problematicChars, c ∈ baseName path)) ∧
    (∀ path : Str, 260 < path.length → validateFilePath path = none) := by
  constructor
  · intro path hlen
    unfold validateFilePath
    rw [if_neg (by omega)]
    by_cases hc : problematicChars.any (fun c => decide (c ∈ baseName path)) = true
    · rw [if_pos hc]
      simp only [true_iff, List.any_eq_true] at hc ⊢
      rcases hc with ⟨c, hcmem, hcin⟩
      exact ⟨c, hcmem, by simpa using hcin⟩
    · rw [if_neg hc]
      simp only [List.any_eq_true] at hc
      constructor
      · intro habs; exact absurd habs (by simp)
      · intro ⟨c, hcmem, hcin⟩
        exact absurd ⟨c, hcmem, by simpa using hcin⟩ hc
  · intro path hlen
    unfold validateFilePath
    rw [if_pos (by omega)]

/-- C4 witness: a short path with a reserved character is rejected. -/
theorem validateFilePath_spec_witness :
    validateFilePath ['a', '<', 'b'] = some ErrorType.invalidFilePath :=
  (validateFilePath_spec.1 ['a', '<', 'b'] (by decide)).mpr
    ⟨'<', by decide, by decide⟩

/-- Scan helper for `filepath.Ext`: walks the reversed path accumulating the
candidate extension; stops with the empty string at a path separator or at the
start of the string. -/
def extScan : Str → Str → Str
  | [], _ => []
  | c :: rest, acc =>
    if c = '/' then []
    else if c = '.' then '.' :: acc
    else extScan rest (c :: acc)

/-- Embedding of `filepath.Ext`: the suffix of the final path element starting
at its final dot, or the empty string when that element has no dot. -/
def extname (p : Str) : Str := extScan p.reverse []

/-- Embedding of `strings.ToLower` on the bytes the allowlist can match. -/
def toLowerStr (s : Str) : Str := s.map Char.toLower

/-- The twelve-extension allowlist of `FileDiscovery` (errors.go:64-77). -/
def videoExtensions : List Str :=
  [".mp4".toList, ".mkv".toList, ".avi".toList, ".mov".toList, ".wmv".toList,
   ".flv".toList, ".webm".toList, ".m4v".toList, ".3gp".toList, ".ts".toList,
   ".mts".toList, ".m2ts".toList]

/-- Embedding of `FileDiscovery.isVideoFile` (errors.go:127-130): lowercased
extension membership in the allowlist. -/
def isVideoFile (p : Str) : Bool :=
  decide (toLowerStr (extname p) ∈ videoExtensions)

/-- Result of an `os.Stat` call: directory flag of the named entry. -/
structure FileInfo where
  isDir : Bool
deriving DecidableEq

/-- The filesystem facts `FindVideoFiles` consults, supplied as an oracle:
`stat` of the input path, the `os.ReadDir` listing of the input directory
(name and directory flag per entry; `none` models a read error), and the
ordered `filepath.Walk` visit sequence with its error outcome. -/
structure FS where
  stat : Str → Option FileInfo
  dirEntries : Option (List (Str × Bool))
  walkEntries : List (Str × Bool)
  walkErr : Bool

/-- The error outcomes of `FindVideoFiles` as its callers observe them. -/
inductive FindErr where
  | cannotAccess
  | cannotReadDir
  | walkFailure
deriving DecidableEq

/-- Embedding of `filepath.Join(dir, name)` for the non-empty operands used
here. -/
def joinPath (dir name : Str) : Str := dir ++ '/' :: name

/-- Embedding of `FileDiscovery.FindVideoFiles` (errors.go:82-124), returning
the Go `(files, err)` pair.  A failing stat or directory read returns a
`FileSystemError`; in recursive mode the walk's own error is returned alongside
the files gathered before it. -/
def findVideoFiles (fs : FS) (inputPath : Str) (recursive : Bool) :
    List Str × Option FindErr :=
  match fs.stat inputPath with
  | none => ([], some FindErr.cannotAccess)
  | some info =>
    if info.isDir then
      if recursive then
        ((fs.walkEntries.filter (fun e => !e.2 && isVideoFile e.1)).map Prod.fst,
          if fs.walkErr then some FindErr.walkFailure else none)
      else
        match fs.dirEntries with
        | none => ([], some FindErr.cannotReadDir)
        | some entries =>
          ((entries.filter
              (fun e => !e.2 && isVideoFile (joinPath inputPath e.1))).map
            (fun e => joinPath inputPath e.1), none)
    else
      (if isVideoFile inputPath then [inputPath] else [], none)

/-- C10: for an input path naming a single regular file whose lowercased
extension is not in the twelve-extension allowlist, `FindVideoFiles` returns an
empty file list and a nil error. -/
theorem findVideoFiles_unsupported_extension (fs : FS) (inputPath : Str)
    (recursive : Bool) (hstat : fs.stat inputPath = some ⟨false⟩)
    (hext : toLowerStr (extname inputPath) ∉ videoExtensions) :
    findVideoFiles fs inputPath recursive = ([], none) := by
  unfold findVideoFiles
  rw [hstat]
  simp [isVideoFile, hext]

/-- C10 witness: a text file is silently ignored. -/
theorem findVideoFiles_unsupported_extension_witness :
    findVideoFiles
      ⟨fun p => if p = "notes.txt".toList then some ⟨false⟩ else none,
        none, [], false⟩
      "notes.txt".toList true = ([], none) :=
  findVideoFiles_unsupported_extension _ _ _ (by decide) (by decide)

/-- The hardware platform enumeration (system.go:10-17). -/
inductive Platform where
  | unknown
  | nvidia
  | appleSilicon
  | software
deriving DecidableEq

/-- The `Preset` record (presets.go:3-12). -/
structure Preset where
  name : Str
  resolution : Str
  codec : Str
  encoder : Str
  bitrate : Str
  description : Str
  args : List Str
  platform : Platform
deriving DecidableEq

/-- Converts a list of Lean string literals to the byte-list model. -/
def strList (l : List String) : List Str := l.map String.toList

/-- The NVIDIA NVENC preset catalog (presets.go:32-109), entries in source
order.  Go stores them in a map; the association list keeps the literal's
order, and all keys are distinct. -/
def nvidiaPresets : List (Str × Preset) :=
  [("720p_av1".toList,
    ⟨"720p_av1".toList, "1280x720".toList, "AV1".toList, "av1_nvenc".toList,
      "2M".toList, "720p AV1 encoding with NVENC".toList,
      strList ["-c:v", "av1_nvenc", "-preset", "p7", "-crf", "28", "-b:v", "2M",
        "-maxrate", "3M", "-bufsize", "6M", "-vf", "scale=1280:720"],
      Platform.nvidia⟩),
   ("1080p_av1".toList,
    ⟨"1080p_av1".toList, "1920x1080".toList, "AV1".toList, "av1_nvenc".toList,
      "4M".toList, "1080p AV1 encoding with NVENC".toList,
      strList ["-c:v", "av1_nvenc", "-preset", "p7", "-crf", "26", "-b:v", "4M",
        "-maxrate", "6M", "-bufsize", "12M", "-vf", "scale=1920:1080"],
      Platform.nvidia⟩),
   ("720p_h264".toList,
    ⟨"720p_h264".toList, "1280x720".toList, "H.264".toList, "h264_nvenc".toList,
      "3M".toList, "720p H.264 encoding with NVENC".toList,
      strList ["-c:v", "h264_nvenc", "-preset", "p7", "-crf", "23", "-b:v", "3M",
        "-maxrate", "4M", "-bufsize", "8M", "-vf", "scale=1280:720"],
      Platform.nvidia⟩),
   ("1080p_h264".toList,
    ⟨"1080p_h264".toList, "1920x1080".toList, "H.264".toList, "h264_nvenc".toList,
      "5M".toList, "1080p H.264 encoding with NVENC".toList,
      strList ["-c:v", "h264_nvenc", "-preset", "p7", "-crf", "23", "-b:v", "5M",
        "-maxrate", "8M", "-bufsize", "16M", "-vf", "scale=1920:1080"],
      Platform.nvidia⟩),
   ("1080p_h265".toList,
    ⟨"1080p_h265".toList, "1920x1080".toList, "H.265".toList, "hevc_nvenc".toList,
      "3M".toList, "1080p H.265 encoding with NVENC".toList,
      strList ["-c:v", "hevc_nvenc", "-preset", "p7", "-crf", "26", "-b:v", "3M",
        "-maxrate", "5M", "-bufsize", "10M", "-vf", "scale=1920:1080"],
      Platform.nvidia⟩),
   ("4k_av1".toList,
    ⟨"4k_av1".toList, "3840x2160".toList, "AV1".toList, "av1_nvenc".toList,
      "15M".toList, "4K AV1 encoding with NVENC".toList,
      strList ["-c:v", "av1_nvenc", "-preset", "p7", "-crf", "28", "-b:v", "15M",
        "-maxrate", "20M", "-bufsize", "40M", "-vf", "scale=3840:2160"],
      Platform.nvidia⟩),
   ("4k_h265".toList,
    ⟨"4k_h265".toList, "3840x2160".toList, "H.265".toList, "hevc_nvenc".toList,
      "20M".toList, "4K H.265 encoding with NVENC".toList,
      strList ["-c:v", "hevc_nvenc", "-preset", "p7", "-crf", "26", "-b:v", "20M",
        "-maxrate", "30M", "-bufsize", "60M", "-vf", "scale=3840:2160"],
      Platform.nvidia⟩)]

/-- The Apple Silicon VideoToolbox preset catalog (presets.go:112-189),
entries in source order. -/
def appleSiliconPresets : List (Str × Preset) :=
  [("720p_av1".toList,
    ⟨"720p_av1".toList, "1280x720".toList, "AV1".toList, "libsvtav1".toList,
      "2M".toList,
      "720p AV1 encoding (software, optimized for Apple Silicon)".toList,
      strList ["-c:v", "libsvtav1", "-preset", "6", "-crf", "28", "-b:v", "2M",
        "-maxrate", "3M", "-bufsize", "6M", "-vf", "scale=1280:720"],
      Platform.appleSilicon⟩),
   ("1080p_av1".toList,
    ⟨"1080p_av1".toList, "1920x1080".toList, "AV1".toList, "libsvtav1".toList,
      "4M".toList,
      "1080p AV1 encoding (software, optimized for Apple Silicon)".toList,
      strList ["-c:v", "libsvtav1", "-preset", "6", "-crf", "26", "-b:v", "4M",
        "-maxrate", "6M", "-bufsize", "12M", "-vf", "scale=1920:1080"],
      Platform.appleSilicon⟩),
   ("720p_h264".toList,
    ⟨"720p_h264".toList, "1280x720".toList, "H.264".toList,
      "h264_videotoolbox".toList, "3M".toList,
      "720p H.264 encoding with VideoToolbox".toList,
      strList ["-c:v", "h264_videotoolbox", "-q:v", "65", "-b:v", "3M",
        "-maxrate", "4M", "-bufsize", "8M", "-vf", "scale=1280:720"],
      Platform.appleSilicon⟩),
   ("1080p_h264".toList,
    ⟨"1080p_h264".toList, "1920x1080".toList, "H.264".toList,
      "h264_videotoolbox".toList, "5M".toList,
      "1080p H.264 encoding with VideoToolbox".toList,
      strList ["-c:v", "h264_videotoolbox", "-q:v", "65", "-b:v", "5M",
        "-maxrate", "8M", "-bufsize", "16M", "-vf", "scale=1920:1080"],
      Platform.appleSilicon⟩),
   ("1080p_h265".toList,
    ⟨"1080p_h265".toList, "1920x1080".toList, "H.265".toList,
      "hevc_videotoolbox".toList, "3M".toList,
      "1080p H.265 encoding with VideoToolbox".toList,
      strList ["-c:v", "hevc_videotoolbox", "-q:v", "65", "-b:v", "3M",
        "-maxrate", "5M", "-bufsize", "10M", "-vf", "scale=1920:1080"],
      Platform.appleSilicon⟩),
   ("4k_av1".toList,
    ⟨"4k_av1".toList, "3840x2160".toList, "AV1".toList, "libsvtav1".toList,
      "15M".toList,
      "4K AV1 encoding (software, optimized for Apple Silicon)".toList,
      strList ["-c:v", "libsvtav1", "-preset", "5", "-crf", "28", "-b:v", "15M",
        "-maxrate", "20M", "-bufsize", "40M", "-vf", "scale=3840:2160"],
      Platform.appleSilicon⟩),
   ("4k_h265".toList,
    ⟨"4k_h265".toList, "3840x2160".toList, "H.265".toList,
      "hevc_videotoolbox".toList, "20M".toList,
      "4K H.265 encoding with VideoToolbox".toList,
      strList ["-c:v", "hevc_videotoolbox", "-q:v", "60", "-b:v", "20M",
        "-maxrate", "30M", "-bufsize", "60M", "-vf", "scale=3840:2160"],
      Platform.appleSilicon⟩)]

/-- Embedding of `GetPresets` (presets.go:14-29): the Apple Silicon catalog on
that platform, the NVIDIA catalog otherwise.  The detected host platform is a
parameter (the source reads it from the runtime environment). -/
def getPresets (host : Platform) : List (Str × Preset) :=
  match host with
  | Platform.appleSilicon => appleSiliconPresets
  | _ => nvidiaPresets

/-- Embedding of `GetPresetsForPlatform` (presets.go:213-224): filters the
current host's catalog by the preset's `Platform` field. -/
def getPresetsForPlatform (host target : Platform) : List (Str × Preset) :=
  (getPresets host).filter (fun pr => decide (pr.2.platform = target))

/-- Go map lookup `presets[name]`; catalog keys are distinct, so the first
match is the match. -/
def lookupPreset (reg : List (Str × Preset)) (nm : Str) : Option Preset :=
  (reg.find? (fun pr => decide (pr.1 = nm))).map Prod.snd

/-- C8: for every platform `target`, every preset returned by
`GetPresetsForPlatform` has its `Platform` field equal to `target`, and the
NVIDIA and Apple Silicon catalogs expose the identical set of preset names. -/
theorem getPresetsForPlatform_spec :
    (∀ host target : Platform, ∀ pr ∈ getPresetsForPlatform host target,
      pr.2.platform = target) ∧
    (∀ nm : Str, nm ∈ nvidiaPresets.map Prod.fst ↔
      nm ∈ appleSiliconPresets.map Prod.fst) := by
  constructor
  · intro host target pr hmem
    have h := (List.mem_filter.mp hmem).2
    simpa using h
  · have hkeys : nvidiaPresets.map Prod.fst = appleSiliconPresets.map Prod.fst := by
      decide
    intro nm
    rw [hkeys]

/-- C8 witness: the filtered NVIDIA view contains the 720p AV1 preset, whose
platform field is NVIDIA. -/
theorem getPresetsForPlatform_spec_witness :
    ("720p_av1".toList, (nvidiaPresets.get ⟨0, by decide⟩).2) ∈
      getPresetsForPlatform Platform.nvidia Platform.nvidia ∧
    ((nvidiaPresets.get ⟨0, by decide⟩).2).platform = Platform.nvidia := by
  constructor
  · decide
  · exact getPresetsForPlatform_spec.1 Platform.nvidia Platform.nvidia _ (by decide)

/-- The encoder switch of `convertToSoftwarePreset` (transcoder.go:356-388):
returns (codec, crf, presetName).  `presetName` starts at "medium" and the
switch overrides codec/crf (and presetName for the AV1 cases). -/
def softwareSel (encoder : Str) : Str × Str × Str :=
  if encoder = "h264_nvenc".toList then
    ("libx264".toList, "23".toList, "medium".toList)
  else if encoder = "hevc_nvenc".toList then
    ("libx265".toList, "26".toList, "medium".toList)
  else if encoder = "av1_nvenc".toList then
    ("libx264".toList, "18".toList, "slower".toList)
  else if encoder = "h264_videotoolbox".toList then
    ("libx264".toList, "23".toList, "medium".toList)
  else if encoder = "hevc_videotoolbox".toList then
    ("libx265".toList, "26".toList, "medium".toList)
  else if encoder = "libsvtav1".toList then
    ("libx264".toList, "18".toList, "slower".toList)
  else
    ("libx264".toList, "23".toList, "medium".toList)

/-- Embedding of `extractScaleFilter` (transcoder.go:410-417): the value after
the first `-vf` flag that has a successor, else the no-scaling sentinel. -/
def extractScaleFilter : List Str → Str
  | a :: b :: rest =>
    if a = "-vf".toList then b else extractScaleFilter (b :: rest)
  | _ => "scale=-1:-1".toList

/-- Embedding of `convertToSoftwarePreset` (transcoder.go:355-407): software
codec selection from the encoder switch, the scale filter copied from the
preset's own arguments, and the bitrate-control triple appended when the
preset carries a bitrate. -/
def convertToSoftwarePreset (p : Preset) : List Str :=
  let sel := softwareSel p.encoder
  let args : List Str :=
    ["-c:v".toList, sel.1, "-preset".toList, sel.2.2, "-crf".toList, sel.2.1,
     "-vf".toList, extractScaleFilter p.args]
  if p.bitrate ≠ [] then
    args ++
      ["-b:v".toList, p.bitrate, "-maxrate".toList, p.bitrate,
       "-bufsize".toList, p.bitrate]
  else
    args

theorem extractScaleFilter_cons_cons (a b : Str) (rest : List Str) :
    extractScaleFilter (a :: b :: rest) =
      if a = "-vf".toList then b else extractScaleFilter (b :: rest) := rfl

theorem convertToSoftwarePreset_eq (p : Preset) :
    convertToSoftwarePreset p =
      ["-c:v".toList, (softwareSel p.encoder).1, "-preset".toList,
       (softwareSel p.encoder).2.2, "-crf".toList, (softwareSel p.encoder).2.1,
       "-vf".toList, extractScaleFilter p.args] ++
      (if p.bitrate ≠ [] then
        ["-b:v".toList, p.bitrate, "-maxrate".toList, p.bitrate,
         "-bufsize".toList, p.bitrate]
      else []) := by
  unfold convertToSoftwarePreset
  by_cases hb : p.bitrate ≠ []
  · rw [if_pos hb, if_pos hb]
  · rw [if_neg hb, if_neg hb]
    simp

/-- C3: (i) both AV1 encoders (hardware `av1_nvenc` and software `libsvtav1`)
convert to the software H.264 encoder `libx264` at the slower/CRF-18 profile,
not to a software AV1 encoder; (ii) for every preset with a bitrate, the
software arguments end with the bitrate reused as target, ceiling and buffer
size, and contain the scale filter extracted from the preset's own arguments;
(iii) the extraction copies the value following the first `-vf` flag verbatim;
(iv) absent such a flag it yields the no-scaling sentinel; (v) every catalog
preset carries a non-empty bitrate, so (ii) applies to all of them. -/
theorem convertToSoftwarePreset_spec :
    (∀ p : Preset,
      p.encoder = "av1_nvenc".toList ∨ p.encoder = "libsvtav1".toList →
      (convertToSoftwarePreset p).take 6 =
        ["-c:v".toList, "libx264".toList, "-preset".toList, "slower".toList,
         "-crf".toList, "18".toList]) ∧
    (∀ p : Preset, p.bitrate ≠ [] →
      ["-b:v".toList, p.bitrate, "-maxrate".toList, p.bitrate,
        "-bufsize".toList, p.bitrate] <:+ convertToSoftwarePreset p ∧
      ["-vf".toList, extractScaleFilter p.args] <:+: convertToSoftwarePreset p) ∧
    (∀ (pre post : List Str) (v : Str), "-vf".toList ∉ pre →
      extractScaleFilter (pre ++ "-vf".toList :: v :: post) = v) ∧
    (∀ args : List Str, "-vf".toList ∉ args.dropLast →
      extractScaleFilter args = "scale=-1:-1".toList) ∧
    (∀ pr ∈ nvidiaPresets ++ appleSiliconPresets, pr.2.bitrate ≠ []) := by
  refine ⟨?_, ?_, ?_, ?_, ?_⟩
  · intro p hp
    rw [convertToSoftwarePreset_eq]
    rcases hp with hp | hp <;>
      rw [hp] <;>
      simp [softwareSel]
  · intro p hb
    rw [convertToSoftwarePreset_eq, if_pos hb]
    constructor
    · exact List.suffix_append _ _
    · exact ⟨["-c:v".toList, (softwareSel p.encoder).1, "-preset".toList,
        (softwareSel p.encoder).2.2, "-crf".toList, (softwareSel p.encoder).2.1],
        ["-b:v".toList, p.bitrate, "-maxrate".toList, p.bitrate,
          "-bufsize".toList, p.bitrate], by simp⟩
  · intro pre
    induction pre with
    | nil =>
      intro post v _
      rw [List.nil_append, extractScaleFilter_cons_cons, if_pos rfl]
    | cons a pre ih =>
      intro post v hnm
      have ha : a ≠ "-vf".toList := fun hc => hnm (hc ▸ List.mem_cons_self a pre)
      cases pre with
      | nil =>
        rw [List.singleton_append, extractScaleFilter_cons_cons, if_neg ha,
          extractScaleFilter_cons_cons, if_pos rfl]
      | cons b pre' =>
        rw [List.cons_append, List.cons_append, extractScaleFilter_cons_cons,
          if_neg ha, ← List.cons_append]
        exact ih post v (fun hc => hnm (List.mem_cons_of_mem a hc))
  · intro args
    induction args with
    | nil =>
      intro _
      rfl
    | cons a rest ih =>
      intro hnm
      cases rest with
      | nil => rfl
      | cons b rest' =>
        have hd : (a :: b :: rest').dropLast = a :: (b :: rest').dropLast := by
          simp
        rw [hd] at hnm
        have ha : a ≠ "-vf".toList := fun hc => hnm (hc ▸ List.mem_cons_self _ _)
        rw [extractScaleFilter_cons_cons, if_neg ha]
        exact ih (fun hc => hnm (List.mem_cons_of_mem a hc))
  · decide

/-- C3 witness: the NVIDIA 720p AV1 preset converts to a slower libx264
profile reusing its 2M bitrate and its own 1280x720 scale filter. -/
theorem convertToSoftwarePreset_spec_witness :
    (convertToSoftwarePreset (nvidiaPresets.get ⟨0, by decide⟩).2).take 6 =
      ["-c:v".toList, "libx264".toList, "-preset".toList, "slower".toList,
       "-crf".toList, "18".toList] ∧
    ["-b:v".toList, "2M".toList, "-maxrate".toList, "2M".toList,
      "-bufsize".toList, "2M".toList] <:+
      convertToSoftwarePreset (nvidiaPresets.get ⟨0, by decide⟩).2 := by
  constructor
  · exact convertToSoftwarePreset_spec.1 (nvidiaPresets.get ⟨0, by decide⟩).2
      (Or.inl (by decide))
  · exact (convertToSoftwarePreset_spec.2.1 (nvidiaPresets.get ⟨0, by decide⟩).2
      (by decide)).1

/-- The encoding tiers of the fallback chain (§4.4): the primary attempt built
with `useHardware = !NoGPU`, the software fallback, and the safe fallback of
`createSafeFallbackArgs`. -/
inductive Tier where
  | hardware
  | software
  | safe
deriving DecidableEq

/-- Kinds of external `ffmpeg` invocations `processFile` makes: the bounded
input probe and the encode attempts. -/
inductive InvKind where
  | probe
  | encode (t : Tier)
deriving DecidableEq

/-- One external-process invocation: its kind and whether the code attached a
buffer to the process's stderr (cmd.Stderr) before running it. -/
structure Invocation where
  kind : InvKind
  captures : Bool
deriving DecidableEq

/-- The configuration fields `processFile` and the fallback chain read
(from `Config`, src/unnamed/part_000). -/
structure Cfg where
  preset : Str
  overwrite : Bool
  noGPU : Bool

/-- The environment oracle for one `processFile` run: `abs` models
`filepath.Abs`, `runOk n` the exit status of the n-th external invocation
(0 = probe, 1 = primary, 2 = software fallback, 3 = safe fallback),
`stderrText n` what that process writes to stderr, `outputExists` the
`os.Stat(outputPath)` skip check, `mkdirOk` the `os.MkdirAll` outcome. -/
structure World where
  abs : Str → Str
  runOk : Nat → Bool
  stderrText : Nat → Str
  outputExists : Bool
  mkdirOk : Bool

/-- Per-file error outcomes of `processFile`.  `encodingFailed diag` records
which captured diagnostic text (if any) the error carries: the Go error wraps
only the exec exit error, whose message contains no stderr text, hence
`none` in both construction sites (transcoder.go:273-274, 285-286); the probe
error's message does embed the captured stderr (transcoder.go:437-438). -/
inductive PErr where
  | invalidPreset
  | invalidPath
  | probeFailed (diag : Str)
  | fsError
  | encodingFailed (diag : Option Str)
deriving DecidableEq

/-- Embedding of `PathUtils.SanitizeWindowsPath` (errors.go:194-204). -/
def sanitizeWindowsPath (abs : Str → Str) (path : Str) : Str :=
  if 260 < path.length ∧ ("\\\\?\\".toList.isPrefixOf path) = false then
    "\\\\?\\".toList ++ abs path
  else
    path

/-- Embedding of `handleEncodingError` (transcoder.go:252-287), entered after
the primary attempt failed; `n` is the index of the next external invocation
(the software fallback).  The hardware and software attempts attach a stderr
buffer; the safe fallback does not (transcoder.go:270-272).  On total failure
the returned `EncodingFailed` wraps the safe attempt's exit error, which
carries no captured diagnostic text; with `NoGPU` set it wraps the primary
attempt's exit error, likewise without diagnostic text. -/
def handleEncodingError (cfg : Cfg) (w : World) (n : Nat) :
    Except PErr Unit × List Invocation :=
  if cfg.noGPU = false then
    let inv2 : Invocation := ⟨InvKind.encode Tier.software, true⟩
    if w.runOk n then
      (Except.ok (), [inv2])
    else
      let inv3 : Invocation := ⟨InvKind.encode Tier.safe, false⟩
      if w.runOk (n + 1) then
        (Except.ok (), [inv2, inv3])
      else
        (Except.error (PErr.encodingFailed none), [inv2, inv3])
  else
    (Except.error (PErr.encodingFailed none), [])

/-- Embedding of `processFile` (transcoder.go:110-202): preset lookup, Windows
path sanitization, path validation, input probe, skip-if-output-exists check,
output-directory creation, the primary encode attempt (hardware tier unless
`NoGPU`), and the fallback chain on failure.  The second component is the
ordered trace of external invocations. -/
def processFile (reg : List (Str × Preset)) (cfg : Cfg) (w : World)
    (inputPath : Str) : Except PErr Unit × List Invocation :=
  match lookupPreset reg cfg.preset with
  | none => (Except.error PErr.invalidPreset, [])
  | some _ =>
    let input2 := sanitizeWindowsPath w.abs inputPath
    match validateFilePath input2 with
    | some _ => (Except.error PErr.invalidPath, [])
    | none =>
      let probeInv : Invocation := ⟨InvKind.probe, true⟩
      if w.runOk 0 = false then
        (Except.error (PErr.probeFailed (w.stderrText 0)), [probeInv])
      else if cfg.overwrite = false ∧ w.outputExists = true then
        (Except.ok (), [probeInv])
      else if w.mkdirOk = false then
        (Except.error PErr.fsError, [probeInv])
      else
        let prim : Invocation :=
          ⟨InvKind.encode (if cfg.noGPU then Tier.software else Tier.hardware),
            true⟩
        if w.runOk 1 then
          (Except.ok (), [probeInv, prim])
        else
          let rest := handleEncodingError cfg w 2
          (rest.1, probeInv :: prim :: rest.2)

/-- The encode tiers attempted during a run, in order (probe excluded). -/
def encodeTiers (trace : List Invocation) : List Tier :=
  trace.filterMap (fun inv =>
    match inv.kind with
    | InvKind.encode t => some t
    | InvKind.probe => none)

theorem processFile_encode_eq (reg : List (Str × Preset)) (cfg : Cfg) (w : World)
    (inputPath : Str) (p : Preset)
    (hreg : lookupPreset reg cfg.preset = some p)
    (hval : validateFilePath (sanitizeWindowsPath w.abs inputPath) = none)
    (hprobe : w.runOk 0 = true)
    (hskip : ¬(cfg.overwrite = false ∧ w.outputExists = true))
    (hmkdir : w.mkdirOk = true) :
    processFile reg cfg w inputPath =
      (if w.runOk 1 then
        (Except.ok (), [⟨InvKind.probe, true⟩,
          ⟨InvKind.encode (if cfg.noGPU then Tier.software else Tier.hardware),
            true⟩])
      else
        ((handleEncodingError cfg w 2).1,
          ⟨InvKind.probe, true⟩ ::
            ⟨InvKind.encode
              (if cfg.noGPU then Tier.software else Tier.hardware), true⟩ ::
            (handleEncodingError cfg w 2).2)) := by
  simp only [processFile, hreg, hval, hprobe, hmkdir]
  rw [if_neg (by simp), if_neg hskip, if_neg (by simp)]

/-- C1: with hardware mode enabled, a failing primary (hardware) attempt is
followed by exactly one software-mode attempt, and if that fails by exactly one
safe-fallback attempt; with `NoGPU` set, exactly one software-mode invocation
is made and no fallback tier follows its failure. -/
theorem fallback_tier_sequence (reg : List (Str × Preset)) (cfg : Cfg)
    (w : World) (inputPath : Str) (p : Preset)
    (hreg : lookupPreset reg cfg.preset = some p)
    (hval : validateFilePath (sanitizeWindowsPath w.abs inputPath) = none)
    (hprobe : w.runOk 0 = true)
    (hskip : ¬(cfg.overwrite = false ∧ w.outputExists = true))
    (hmkdir : w.mkdirOk = true) :
    (cfg.noGPU = false → w.runOk 1 = false → w.runOk 2 = true →
      encodeTiers (processFile reg cfg w inputPath).2 =
        [Tier.hardware, Tier.software]) ∧
    (cfg.noGPU = false → w.runOk 1 = false → w.runOk 2 = false →
      encodeTiers (processFile reg cfg w inputPath).2 =
        [Tier.hardware, Tier.software, Tier.safe]) ∧
    (cfg.noGPU = true →
      encodeTiers (processFile reg cfg w inputPath).2 = [Tier.software]) := by
  rw [processFile_encode_eq reg cfg w inputPath p hreg hval hprobe hskip hmkdir]
  refine ⟨?_, ?_, ?_⟩
  · intro hng h1 h2
    simp [h1, hng, handleEncodingError, h2, encodeTiers]
  · intro hng h1 h2
    by_cases h3 : w.runOk 3 = true <;>
      simp [h1, hng, handleEncodingError, h2, h3, encodeTiers]
  · intro hng
    by_cases h1 : w.runOk 1 = true
    · simp [h1, hng, encodeTiers]
    · simp only [Bool.not_eq_true] at h1
      simp [h1, hng, handleEncodingError, encodeTiers]

/-- A config with hardware mode enabled, overwrite on, and the first catalog
preset selected. -/
def cfgHW : Cfg := ⟨"720p_av1".toList, true, false⟩

/-- A world where the probe succeeds and every encode attempt fails, each
process writing diagnostic text to stderr. -/
def wAllFail : World :=
  ⟨fun s => s, fun n => decide (n = 0), fun _ => "boom".toList, false, true⟩

/-- C1 witness: in the all-fail world the attempted tiers are exactly
hardware, then software, then safe. -/
theorem fallback_tier_sequence_witness :
    encodeTiers (processFile nvidiaPresets cfgHW wAllFail "a".toList).2 =
      [Tier.hardware, Tier.software, Tier.safe] :=
  (fallback_tier_sequence nvidiaPresets cfgHW wAllFail "a".toList
    (nvidiaPresets.get ⟨0, by decide⟩).2 (by decide) (by decide) (by decide)
    (by decide) (by decide)).2.1 rfl rfl rfl

/-- C6 (amended): when every tier fails, the hardware and software attempts
attach a stderr capture buffer but the safe attempt does not, and the final
`EncodingFailed` error wraps the safe attempt's exit error without any captured
diagnostic text. -/
theorem fallback_diagnostics (reg : List (Str × Preset)) (cfg : Cfg) (w : World)
    (inputPath : Str) (p : Preset)
    (hreg : lookupPreset reg cfg.preset = some p)
    (hval : validateFilePath (sanitizeWindowsPath w.abs inputPath) = none)
    (hprobe : w.runOk 0 = true)
    (hskip : ¬(cfg.overwrite = false ∧ w.outputExists = true))
    (hmkdir : w.mkdirOk = true)
    (hng : cfg.noGPU = false) (h1 : w.runOk 1 = false)
    (h2 : w.runOk 2 = false) (h3 : w.runOk 3 = false) :
    (processFile reg cfg w inputPath).2 =
      [⟨InvKind.probe, true⟩, ⟨InvKind.encode Tier.hardware, true⟩,
       ⟨InvKind.encode Tier.software, true⟩,
       ⟨InvKind.encode Tier.safe, false⟩] ∧
    (processFile reg cfg w inputPath).1 =
      Except.error (PErr.encodingFailed none) := by
  rw [processFile_encode_eq reg cfg w inputPath p hreg hval hprobe hskip hmkdir]
  constructor
  · simp [h1, hng, handleEncodingError, h2, h3]
  · simp [h1, hng, handleEncodingError, h2, h3]

/-- C6 witness: the amended diagnostics behavior at the all-fail world. -/
theorem fallback_diagnostics_witness :
    (processFile nvidiaPresets cfgHW wAllFail "a".toList).2 =
      [⟨InvKind.probe, true⟩, ⟨InvKind.encode Tier.hardware, true⟩,
       ⟨InvKind.encode Tier.software, true⟩,
       ⟨InvKind.encode Tier.safe, false⟩] ∧
    (processFile nvidiaPresets cfgHW wAllFail "a".toList).1 =
      Except.error (PErr.encodingFailed none) :=
  fallback_diagnostics nvidiaPresets cfgHW wAllFail "a".toList
    (nvidiaPresets.get ⟨0, by decide⟩).2 (by decide) (by decide) (by decide)
    (by decide) (by decide) rfl rfl rfl rfl

/-- C6 counterexample: in the all-fail world the safe tier's invocation is made
without a stderr capture buffer, and the final error carries no diagnostic
text even though the last process wrote a non-empty diagnostic — contradicting
the claim that every tier captures its diagnostic stream and that the error
carries the last captured text. -/
theorem fallback_diagnostics_counterexample :
    (processFile nvidiaPresets cfgHW wAllFail "a".toList).2.getLast? =
      some ⟨InvKind.encode Tier.safe, false⟩ ∧
    wAllFail.stderrText 3 ≠ [] ∧
    (processFile nvidiaPresets cfgHW wAllFail "a".toList).1 =
      Except.error (PErr.encodingFailed none) ∧
    (processFile nvidiaPresets cfgHW wAllFail "a".toList).1 ≠
      Except.error (PErr.encodingFailed (some (wAllFail.stderrText 3))) := by
  refine ⟨by rfl, by decide, by rfl, ?_⟩
  intro hcontra
  rw [show (processFile nvidiaPresets cfgHW wAllFail "a".toList).1 =
      Except.error (PErr.encodingFailed none) from rfl] at hcontra
  simp at hcontra

/-- C9 (amended): when the preset exists, the sanitized path validates, the
input probe succeeds, overwrite is disabled and the computed output already
exists, the file is skipped: the run returns success and makes no encode
attempt (only the probe invocation ran). -/
theorem skip_existing_output (reg : List (Str × Preset)) (cfg : Cfg) (w : World)
    (inputPath : Str) (p : Preset)
    (hreg : lookupPreset reg cfg.preset = some p)
    (hval : validateFilePath (sanitizeWindowsPath w.abs inputPath) = none)
    (hprobe : w.runOk 0 = true)
    (hov : cfg.overwrite = false)
    (hex : w.outputExists = true) :
    processFile reg cfg w inputPath = (Except.ok (), [⟨InvKind.probe, true⟩]) ∧
    encodeTiers (processFile reg cfg w inputPath).2 = [] := by
  have heq : processFile reg cfg w inputPath =
      (Except.ok (), [⟨InvKind.probe, true⟩]) := by
    simp only [processFile, hreg, hval, hprobe]
    rw [if_neg (by simp), if_pos ⟨hov, hex⟩]
  exact ⟨heq, by rw [heq]; rfl⟩

/-- A config selecting the first catalog preset with overwrite disabled. -/
def cfgSkip : Cfg := ⟨"720p_av1".toList, false, false⟩

/-- A world where the output path already exists and every invocation
succeeds. -/
def wOutputExists : World := ⟨fun s => s, fun _ => true, fun _ => [], true, true⟩

/-- A world where the output path already exists but the input probe fails. -/
def wOutputExistsProbeFail : World :=
  ⟨fun s => s, fun _ => false, fun _ => "boom".toList, true, true⟩

/-- C9 witness: with an existing output, overwrite disabled and a healthy
input, the file is skipped with success and no encode attempt. -/
theorem skip_existing_output_witness :
    processFile nvidiaPresets cfgSkip wOutputExists "a".toList =
      (Except.ok (), [⟨InvKind.probe, true⟩]) :=
  (skip_existing_output nvidiaPresets cfgSkip wOutputExists "a".toList
    (nvidiaPresets.get ⟨0, by decide⟩).2 (by decide) (by decide) rfl rfl
    rfl).1

/-- C9 counterexample: the output-exists skip check runs only after the input
probe, so a file whose output already exists (overwrite disabled) still fails
with an error when the probe fails — contradicting the claim that every such
file returns success. -/
theorem skip_existing_output_counterexample :
    cfgSkip.overwrite = false ∧
    wOutputExistsProbeFail.outputExists = true ∧
    (processFile nvidiaPresets cfgSkip wOutputExistsProbeFail "a".toList).1 =
      Except.error (PErr.probeFailed "boom".toList) :=
  ⟨rfl, rfl, rfl⟩

/-- Whether a per-file result is an error. -/
def isErrB (r : Except PErr Unit) : Bool :=
  match r with
  | Except.error _ => true
  | Except.ok _ => false

/-- The sequential loop shared by `ProcessFiles` (transcoder.go:60-79) and
`ProcessFilesWithProgress` (transcoder.go:82-107): visits every file in order
and appends each failure to the error list.  Returns (visited files, errors). -/
def processFilesAcc (step : Str → Except PErr Unit) :
    List Str → List Str × List PErr
  | [] => ([], [])
  | f :: rest =>
    let r := step f
    let acc := processFilesAcc step rest
    (f :: acc.1,
      match r with
      | Except.error e => e :: acc.2
      | Except.ok _ => acc.2)

/-- The batch-level error: the generic "transcoding completed with errors"
value, tagged with the error count the loop reported. -/
inductive BatchErr where
  | aggregate (errCount : Nat)
deriving DecidableEq

/-- Embedding of `ProcessFiles` (transcoder.go:60-79): process every file,
return the aggregate error exactly when at least one file failed, alongside
the ordered list of files visited. -/
def processFiles (step : Str → Except PErr Unit) (files : List Str) :
    Except BatchErr Unit × List Str :=
  let acc := processFilesAcc step files
  (if 0 < acc.2.length then Except.error (BatchErr.aggregate acc.2.length)
   else Except.ok (), acc.1)

/-- Embedding of `processFileWithAnalytics` (transcoder.go:290-352) as the
batch loop sees it: a failing `os.Stat` on the input becomes a
`FileSystemError`, otherwise the result is `processFile`'s; the CSV row it
writes does not affect the returned error. -/
def processFileWithAnalytics (statOk : Str → Bool)
    (step : Str → Except PErr Unit) (f : Str) : Except PErr Unit :=
  if statOk f = false then Except.error PErr.fsError else step f

/-- Embedding of `ProcessFilesWithProgress` (transcoder.go:82-107): the same
continue-on-error loop over the analytics-wrapped per-file step. -/
def processFilesWithProgress (statOk : Str → Bool)
    (step : Str → Except PErr Unit) (files : List Str) :
    Except BatchErr Unit × List Str :=
  let acc := processFilesAcc (processFileWithAnalytics statOk step) files
  (if 0 < acc.2.length then Except.error (BatchErr.aggregate acc.2.length)
   else Except.ok (), acc.1)

theorem processFilesAcc_visited (step : Str → Except PErr Unit) :
    ∀ files : List Str, (processFilesAcc step files).1 = files := by
  intro files
  induction files with
  | nil => rfl
  | cons f rest ih =>
    simp only [processFilesAcc]
    rw [ih]

theorem processFilesAcc_errCount (step : Str → Except PErr Unit) :
    ∀ files : List Str, (processFilesAcc step files).2.length =
      files.countP (fun f => isErrB (step f)) := by
  intro files
  induction files with
  | nil => rfl
  | cons f rest ih =>
    simp only [processFilesAcc, List.countP_cons]
    cases hr : step f with
    | error e =>
      rw [show isErrB (Except.error e) = true from rfl, if_pos rfl,
        List.length_cons, ih]
    | ok u =>
      rw [show isErrB (Except.ok u) = false from rfl,
        if_neg (by simp), ih, Nat.add_zero]

theorem batch_result_spec (acc : List Str × List PErr) (k : Nat)
    (hk : acc.2.length = k) :
    ((if 0 < acc.2.length then Except.error (BatchErr.aggregate acc.2.length)
      else Except.ok () : Except BatchErr Unit) =
        Except.error (BatchErr.aggregate k) ↔ 0 < k) := by
  subst hk
  by_cases h : 0 < acc.2.length
  · rw [if_pos h]
    simp [h]
  · rw [if_neg h]
    simp [h]

/-- C2: both batch entry points visit every discovered file in order, never
aborting early, and return the aggregate error exactly when the number of
failing files is positive. -/
theorem processFiles_batch_spec :
    (∀ (step : Str → Except PErr Unit) (files : List Str),
      (processFiles step files).2 = files ∧
      ((processFiles step files).1 =
        Except.error
          (BatchErr.aggregate (files.countP (fun f => isErrB (step f)))) ↔
        0 < files.countP (fun f => isErrB (step f)))) ∧
    (∀ (statOk : Str → Bool) (step : Str → Except PErr Unit)
        (files : List Str),
      (processFilesWithProgress statOk step files).2 = files ∧
      ((processFilesWithProgress statOk step files).1 =
        Except.error
          (BatchErr.aggregate
            (files.countP
              (fun f => isErrB (processFileWithAnalytics statOk step f)))) ↔
        0 < files.countP
          (fun f => isErrB (processFileWithAnalytics statOk step f)))) := by
  constructor
  · intro step files
    constructor
    · simp [processFiles, processFilesAcc_visited]
    · exact batch_result_spec (processFilesAcc step files) _
        (processFilesAcc_errCount step files)
  · intro statOk step files
    constructor
    · simp [processFilesWithProgress, processFilesAcc_visited]
    · exact batch_result_spec
        (processFilesAcc (processFileWithAnalytics statOk step) files) _
        (processFilesAcc_errCount (processFileWithAnalytics statOk step) files)

/-- C5 (amended): when the configured preset is not in the registry, every
per-file attempt fails immediately with `InvalidPreset` before any probe or
encode invocation, yet the batch still visits every discovered file and, when
the list is non-empty, finishes with the generic aggregate error rather than
aborting up front with an `InvalidPreset`-typed run error. -/
theorem invalid_preset_run (reg : List (Str × Preset)) (cfg : Cfg) (w : World)
    (files : List Str)
    (hmiss : lookupPreset reg cfg.preset = none) :
    (∀ inputPath : Str, processFile reg cfg w inputPath =
      (Except.error PErr.invalidPreset, [])) ∧
    (processFiles (fun f => (processFile reg cfg w f).1) files).2 = files ∧
    (files ≠ [] →
      (processFiles (fun f => (processFile reg cfg w f).1) files).1 =
        Except.error (BatchErr.aggregate files.length)) := by
  have hstep : ∀ f : Str, (processFile reg cfg w f).1 =
      Except.error PErr.invalidPreset := by
    intro f
    simp [processFile, hmiss]
  refine ⟨?_, ?_, ?_⟩
  · intro inputPath
    simp [processFile, hmiss]
  · simp [processFiles, processFilesAcc_visited]
  · intro hne
    have hcnt : (processFilesAcc (fun f => (processFile reg cfg w f).1)
        files).2.length = files.length := by
      rw [processFilesAcc_errCount]
      apply List.countP_eq_length.mpr
      intro a _
      rw [hstep a]
      rfl
    simp only [processFiles]
    rw [hcnt, if_pos (List.length_pos.mpr hne)]

/-- A config naming a preset absent from every catalog. -/
def cfgBogus : Cfg := ⟨"bogus".toList, false, false⟩

/-- C5 witness: with a missing preset, a file's processing fails with
`InvalidPreset` and an empty invocation trace, and a two-file batch ends with
the aggregate error counting both failures. -/
theorem invalid_preset_run_witness :
    processFile nvidiaPresets cfgBogus wOutputExists "a".toList =
      (Except.error PErr.invalidPreset, []) ∧
    (processFiles
      (fun f => (processFile nvidiaPresets cfgBogus wOutputExists f).1)
      ["a".toList, "b".toList]).1 = Except.error (BatchErr.aggregate 2) := by
  constructor
  · exact (invalid_preset_run nvidiaPresets cfgBogus wOutputExists []
      (by decide)).1 "a".toList
  · have h := (invalid_preset_run nvidiaPresets cfgBogus wOutputExists
      ["a".toList, "b".toList] (by decide)).2.2 (by simp)
    simpa using h

/-- C5 counterexample: with a missing preset and two discovered files, the
batch visits both files (it does not abort before processing any) and returns
the generic aggregate error, not an `InvalidPreset`-typed run error. -/
theorem invalid_preset_run_counterexample :
    (processFiles
      (fun f => (processFile nvidiaPresets cfgBogus wOutputExists f).1)
      ["a".toList, "b".toList]).2 = ["a".toList, "b".toList] ∧
    ["a".toList, "b".toList] ≠ ([] : List Str) ∧
    (processFiles
      (fun f => (processFile nvidiaPresets cfgBogus wOutputExists f).1)
      ["a".toList, "b".toList]).1 = Except.error (BatchErr.aggregate 2) := by
  refine ⟨by rfl, by simp, by rfl⟩
